import Mathlib

/-!
Verification of the go-coap CoAP library (datagram and stream codecs,
block-wise descriptor, dispatch, observe detection, retransmitter).

The repository bundles several historical revisions of the same package.
Where two revisions of a function exist we embed both:
  - `Message.encode` / `parseMessage` come from src/message.go;
  - `Message.MarshalBinary` / `Message.UnmarshalBinary` come from the
    revision in src/client.go.
Go byte strings are modelled as `List Nat` (each element a byte value);
machine-integer truncation is written with explicit `% 256`, `% 65536`,
`% 4294967296` at the places where Go converts to uint8/uint16/uint32.
-/

/-- From `encodeInt` (src/client.go, identical in src/message.go):
shortest big-endian encoding of a uint32.  The Go switch writes 0, 1, 2,
3 or 4 bytes; `binary.BigEndian.PutUint16`/`PutUint32` byte extraction is
written out as division and remainder. -/
def encodeInt (v : Nat) : List Nat :=
  if v = 0 then []
  else if v < 256 then [v]
  else if v < 65536 then [v / 256, v % 256]
  else if v < 16777216 then [v / 65536, v / 256 % 256, v % 256]
  else [v / 16777216 % 256, v / 65536 % 256, v / 256 % 256, v % 256]

/-- From `decodeInt` (src/client.go): the bytes are copied into the tail
of a 4-byte zero buffer and read back as a big-endian uint32; for inputs
of at most 4 bytes this is the big-endian value, computed here by a fold.
(Go panics when `len(b) > 4`; no theorem below evaluates that case.) -/
def decodeInt (b : List Nat) : Nat :=
  b.foldl (fun a x => a * 256 + x) 0

/-- Option numbers decoded as big-endian unsigned integers
(URIPort, ContentFormat, MaxAge, Accept, Size1); from the `switch oid`
in `UnmarshalBinary` (src/client.go) and `parseMessage` (src/message.go). -/
def intOptions : List Nat := [7, 12, 14, 17, 60]

/-- Option numbers decoded as strings (URIHost, LocationPath, URIPath,
URIQuery, LocationQuery, ProxyURI, ProxyScheme); same switch. -/
def stringOptions : List Nat := [3, 8, 11, 15, 20, 35, 39]

/-- The sixteen registered option numbers (the OptionID constants of
src/message.go / src/client.go). -/
def coapRegistry : List Nat := [1, 3, 4, 5, 6, 7, 8, 11, 12, 14, 15, 17, 20, 35, 39, 60]

/-- An option value.  The Go source stores `interface{}`; the values the
codec itself produces and consumes are byte slices, strings (byte
sequences in Go) and unsigned integers, which we model as a tagged sum.
The remaining Go cases (int, int32, uint, MediaType) coerce to uint32
inside `toBytes` and are covered by the `uint` variant. -/
inductive OptVal : Type where
  | bytes (b : List Nat)
  | str (s : List Nat)
  | uint (v : Nat)
deriving DecidableEq

/-- From `option.toBytes` (src/client.go): strings and byte slices pass
through verbatim, numeric values go through `encodeInt`. -/
def OptVal.toBytes : OptVal → List Nat
  | .str s => s
  | .bytes b => b
  | .uint v => encodeInt v

/-- From `type option struct { ID OptionID; Value interface{} }`. -/
structure COption : Type where
  id : Nat
  val : OptVal
deriving DecidableEq

/-- From `type Message struct` (src/message.go / src/client.go):
type, code, message id, token, payload and the ordered option list.
Field ranges enforced by the Go types (uint8/uint16) are carried as
hypotheses where theorems need them. -/
structure Message : Type where
  type : Nat
  code : Nat
  messageID : Nat
  token : List Nat
  payload : List Nat
  opts : List COption
deriving DecidableEq

/-- Stable insertion of an option into a list already sorted by id:
the new option lands before the first entry of equal or larger id. -/
def insertOpt (o : COption) : List COption → List COption
  | [] => [o]
  | p :: ps => if o.id ≤ p.id then o :: p :: ps else p :: insertOpt o ps

/-- Stable sort of the option list by option number.  Models
`sort.Stable(&m.opts)` in `MarshalBinary` (src/client.go); the
`options.Less` comparator orders by ID and never reorders entries of
equal ID (its tie-break compares current indices).  `Message.encode`
(src/message.go) instead calls `sort.Sort`, whose order among equal IDs
is unspecified; the theorems drawn from that revision do not depend on
the relative order of equal-ID entries. -/
def sortOpts : List COption → List COption
  | [] => []
  | o :: os => insertOpt o (sortOpts os)

/-- From the `extendOpt` closure in `MarshalBinary` (src/client.go):
split a delta or length value into (nibble, extension value) per the
RFC 7252 scheme: values below 13 stand alone, 13..268 use nibble 13 with
a one-byte extension, larger values use nibble 14 with a two-byte
extension. -/
def extendOpt (opt : Nat) : Nat × Nat :=
  if opt ≥ 13 then
    if opt ≥ 269 then (14, opt - 269) else (13, opt - 13)
  else (opt, 0)

/-- From the `writeExt` closure in `MarshalBinary` (src/client.go):
nibble 13 emits one byte, nibble 14 emits a big-endian uint16
(`uint16(ext)` truncation written as `% 65536`). -/
def extBytes (opt ext : Nat) : List Nat :=
  if opt = 13 then [ext % 256]
  else if opt = 14 then [ext % 65536 / 256, ext % 256]
  else []

/-- From the `writeOptHeader` closure in `MarshalBinary` (src/client.go):
one byte `byte(d<<4) | byte(l)` followed by the delta extension then the
length extension. -/
def optHeader (delta length : Nat) : List Nat :=
  let d := (extendOpt delta).1
  let dx := (extendOpt delta).2
  let l := (extendOpt length).1
  let lx := (extendOpt length).2
  (d * 16 % 256 ||| l % 256) :: (extBytes d dx ++ extBytes l lx)

/-- The option-emission loop of `MarshalBinary` (src/client.go): for each
option, header bytes for (id - prev, value length) then the value bytes,
with `prev` advancing to the id just written. -/
def encodeOpts (prev : Nat) : List COption → List Nat
  | [] => []
  | o :: os =>
    optHeader (o.id - prev) o.val.toBytes.length ++ o.val.toBytes ++ encodeOpts o.id os

/-- The payload part of the encoders: the 0xFF marker followed by the
payload, emitted only when the payload is non-empty. -/
def payloadSection (pl : List Nat) : List Nat :=
  if pl = [] then [] else 255 :: pl

/-- From `Message.MarshalBinary` (src/client.go): fixed 4-byte header
`(1<<6) | (Type<<4) | (0xf & len(Token))`, code, big-endian message id,
then token, stably sorted options, and the payload section.  The uint8
shift of the type is written `% 256`; `0xf &` is `% 16`. -/
def Message.MarshalBinary (m : Message) : List Nat :=
  (64 ||| m.type * 16 % 256 ||| m.token.length % 16) :: m.code ::
    m.messageID / 256 % 256 :: m.messageID % 256 ::
    (m.token ++ encodeOpts 0 (sortOpts m.opts) ++ payloadSection m.payload)

/-- Errors of `Message.UnmarshalBinary` (src/client.go).  `panicOOB`
stands for a Go runtime panic from an out-of-range index or slice; it is
distinct from every error the function returns. -/
inductive UErr : Type where
  | shortPacket
  | invalidVersion
  | invalidTokenLen
  | extMarker
  | truncated
  | panicOOB
deriving DecidableEq

/-- From the `parseExtOpt` closure in `UnmarshalBinary` (src/client.go):
nibble 13 consumes one extension byte (value + 13), nibble 14 consumes a
big-endian uint16 (value + 269); other nibbles pass through.  Reading
past the end of the buffer is a Go panic. -/
def parseExtOpt (opt : Nat) (b : List Nat) : Except UErr (Nat × List Nat) :=
  if opt = 13 then
    match b with
    | x :: r => .ok (x + 13, r)
    | [] => .error .panicOOB
  else if opt = 14 then
    match b with
    | x :: y :: r => .ok (x * 256 + y + 269, r)
    | _ => .error .panicOOB
  else .ok (opt, b)

/-- The per-option value reconstitution switch shared by both decoders:
integer options via `decodeInt`, string options as strings, all other
numbers as opaque bytes. -/
def decodeOptVal (oid : Nat) (b : List Nat) : OptVal :=
  if oid ∈ intOptions then .uint (decodeInt b)
  else if oid ∈ stringOptions then .str b
  else .bytes b

/-- The option-parsing loop of `UnmarshalBinary` (src/client.go): stop on
end of input or on the 0xFF payload marker, reject nibble 15, read the
extended delta and length, check the value fits, accumulate the option
and continue with `prev` advanced.  The id `OptionID(prev + delta)` is a
uint8, hence the `% 256` truncation.  The loop consumes at least one byte
per iteration; `fuel` bounds the iteration count and the top-level caller
passes the buffer length, which always suffices. -/
def parseOpts (fuel : Nat) (b : List Nat) (prev : Nat) :
    Except UErr (List COption × List Nat) :=
  match b with
  | [] => .ok ([], [])
  | b0 :: rest =>
    if b0 = 255 then .ok ([], rest)
    else
      match fuel with
      | 0 => .error .panicOOB
      | fuel + 1 =>
        let delta0 := b0 / 16
        let len0 := b0 % 16
        if delta0 = 15 ∨ len0 = 15 then .error .extMarker
        else
          match parseExtOpt delta0 rest with
          | .error e => .error e
          | .ok (delta, b1) =>
            match parseExtOpt len0 b1 with
            | .error e => .error e
            | .ok (len, b2) =>
              if b2.length < len then .error .truncated
              else
                match parseOpts fuel (b2.drop len) ((prev + delta) % 256) with
                | .error e => .error e
                | .ok (opts, pl) =>
                  .ok (⟨(prev + delta) % 256,
                        decodeOptVal ((prev + delta) % 256) (b2.take len)⟩ :: opts, pl)

/-- From `Message.UnmarshalBinary` (src/client.go): inputs of fewer than
6 bytes are a short packet; the version bits must be 1; the token-length
nibble must not exceed 8; then the token is copied and the option loop
runs on the remainder.  `data[4+tokenLen:]` panics in Go when the token
length exceeds the remaining bytes. -/
def Message.UnmarshalBinary (data : List Nat) : Except UErr Message :=
  if data.length < 6 then .error .shortPacket
  else
    match data with
    | d0 :: d1 :: d2 :: d3 :: rest =>
      if d0 / 64 ≠ 1 then .error .invalidVersion
      else
        let tkl := d0 % 16
        if tkl > 8 then .error .invalidTokenLen
        else if rest.length < tkl then .error .panicOOB
        else
          match parseOpts (rest.drop tkl).length (rest.drop tkl) 0 with
          | .error e => .error e
          | .ok (opts, pl) =>
            .ok { type := d0 / 16 % 4, code := d1, messageID := d2 * 256 + d3,
                  token := rest.take tkl, payload := pl, opts := opts }
    | _ => .error .shortPacket

/-- `bytes.Trim(l, " \x00")`: remove leading and trailing space (0x20)
and NUL (0x00) bytes; used by the src/message.go revision on the payload
in both directions. -/
def trimSpaceNul (l : List Nat) : List Nat :=
  ((l.dropWhile fun x => x = 32 || x = 0).reverse.dropWhile fun x => x = 32 || x = 0).reverse

/-- Errors of the src/message.go revision (`Message.encode` and
`parseMessage`).  `nibblePanic` is the panic inside `optionNibble`;
`panicOOB` is a runtime index/slice panic. -/
inductive AErr : Type where
  | shortPacket
  | invalidVersion
  | invalidTokenLen
  | truncated
  | optionGapTooLarge
  | nibblePanic
  | panicOOB
deriving DecidableEq

/-- From `optionNibble` (src/message.go): values below 13 stand alone
(`0xFF & value` is the identity there), up to 268 give 13, up to 65804
give 14, larger values panic. -/
def optionNibble (value : Nat) : Except AErr Nat :=
  if value < 13 then .ok value
  else if value ≤ 255 + 13 then .ok 13
  else if value ≤ 65535 + 269 then .ok 14
  else .error .nibblePanic

/-- The option loop of `Message.encode` (src/message.go).  The header
byte is `0xFF & (byte(delta)<<4 | byte(l))`; nibble 13 appends
`byte(optDelta-13)`; nibble 14 appends `byte(uint8(optDelta-269) >> 8)`
(always zero: the shift happens after the uint8 truncation) and
`byte(0xFF & (optDelta-269))`, and similarly for the length.  After the
header bytes are written the function rejects any gap above 15 with
`ErrOptionGapTooLarge`, which discards the buffer, so the model returns
the error for the whole encoding. -/
def encodeOptsA (prev : Nat) : List COption → Except AErr (List Nat)
  | [] => .ok []
  | o :: os =>
    let b := o.val.toBytes
    let optDelta := o.id - prev
    match optionNibble optDelta with
    | .error e => .error e
    | .ok delta =>
      match optionNibble b.length with
      | .error e => .error e
      | .ok l =>
        let dext : List Nat :=
          if delta = 13 then [(optDelta - 13) % 256]
          else if delta = 14 then [(optDelta - 269) % 256 / 256, (optDelta - 269) % 256]
          else []
        let lext : List Nat :=
          if l = 13 then [(b.length - 13) % 256]
          else if l = 14 then [b.length % 256 / 256, (b.length - 269) % 256]
          else []
        if optDelta > 15 then .error .optionGapTooLarge
        else
          match encodeOptsA o.id os with
          | .error e => .error e
          | .ok tail =>
            .ok (((delta * 16 % 256 ||| l % 256) % 256) :: (dext ++ lext ++ b ++ tail))

/-- From `Message.encode` (src/message.go): same fixed header as
`MarshalBinary`, then the token, the sorted options (via `sort.Sort`,
modelled with the stable sort, see `sortOpts`), the 0xFF marker when the
stored payload is non-empty, and finally `bytes.Trim(m.Payload, " \x00")`
- the payload with leading and trailing space and NUL bytes removed. -/
def Message.encode (m : Message) : Except AErr (List Nat) :=
  match encodeOptsA 0 (sortOpts m.opts) with
  | .error e => .error e
  | .ok ob =>
    .ok ((64 ||| m.type * 16 % 256 ||| m.token.length % 16) :: m.code ::
      m.messageID / 256 % 256 :: m.messageID % 256 ::
      (m.token ++ ob ++ (if m.payload = [] then [] else [255]) ++ trimSpaceNul m.payload))

/-- The option loop of `parseMessage` (src/message.go).  This revision
reads the delta straight from the nibble (no extended-delta handling;
the id `OptionID(prev + ...)` is a uint8, hence the `% 256` truncation),
then applies two sequential corrections to the length: `if l == 13` adds
the next byte, and afterwards `if l == 14` (which can also fire when the
previous step produced 14) replaces the length by `len(b[2:]) & 0xFFFF`.
Out-of-range accesses are Go panics.  `fuel` bounds iterations as in
`parseOpts`. -/
def parseLoopA (fuel : Nat) (b : List Nat) (prev : Nat) :
    Except AErr (List COption × List Nat) :=
  match b with
  | [] => .ok ([], [])
  | b0 :: rest =>
    if b0 = 255 then .ok ([], rest)
    else
      match fuel with
      | 0 => .error .panicOOB
      | fuel + 1 =>
        let oid := (prev + b0 / 16) % 256
        let step1 : Except AErr (Nat × List Nat) :=
          if b0 % 16 = 13 then
            match rest with
            | x :: r => .ok (13 + x, r)
            | [] => .error .panicOOB
          else .ok (b0 % 16, rest)
        match step1 with
        | .error e => .error e
        | .ok (l1, b1) =>
          let step2 : Except AErr (Nat × List Nat) :=
            if l1 = 14 then
              if b1.length < 2 then .error .panicOOB
              else .ok ((b1.length - 2) % 65536, b1.drop 2)
            else .ok (l1, b1)
          match step2 with
          | .error e => .error e
          | .ok (l2, b2) =>
            if b2.length < l2 then .error .truncated
            else
              match parseLoopA fuel (b2.drop l2) oid with
              | .error e => .error e
              | .ok (opts, pl) =>
                .ok (⟨oid, decodeOptVal oid (b2.take l2)⟩ :: opts, pl)

/-- From `parseMessage` (src/message.go): inputs shorter than 4 bytes are
a short packet; the version bits must be 1; the token-length nibble must
not exceed 8.  This revision never skips or stores the token (the loop
starts at `data[4:]` and `rv.Token` is never assigned), and trims the
payload with `bytes.Trim(b, " \x00")`. -/
def parseMessage (data : List Nat) : Except AErr Message :=
  if data.length < 4 then .error .shortPacket
  else
    match data with
    | d0 :: d1 :: d2 :: d3 :: rest =>
      if d0 / 64 ≠ 1 then .error .invalidVersion
      else if d0 % 16 > 8 then .error .invalidTokenLen
      else
        match parseLoopA rest.length rest 0 with
        | .error e => .error e
        | .ok (opts, pl) =>
          .ok { type := d0 / 16 % 4, code := d1, messageID := d2 * 256 + d3,
                token := [], payload := trimSpaceNul pl, opts := opts }
    | _ => .error .shortPacket

/-- The option list is non-decreasing in id, starting at or above `prev`
(the shape the delta encoding relies on). -/
def SortedFrom (prev : Nat) : List COption → Prop
  | [] => True
  | o :: os => prev ≤ o.id ∧ SortedFrom o.id os

/-- An option whose value has the canonical shape the decoder produces
for its (registered) option number: integers for the uint registry,
strings for the string registry, opaque bytes otherwise, with byte
values in range and integers fitting uint32. -/
def COption.Canonical (o : COption) : Prop :=
  o.id ∈ coapRegistry ∧
    match o.val with
    | .uint v => o.id ∈ intOptions ∧ v < 4294967296
    | .str s => o.id ∈ stringOptions ∧ ∀ x ∈ s, x < 256
    | .bytes l => o.id ∉ intOptions ∧ o.id ∉ stringOptions ∧ ∀ x ∈ l, x < 256

/-- The Go-typed field ranges that the round-trip depends on: the type is
one of the four COAPType constants and the message id fits uint16. -/
def Message.WellFormed (m : Message) : Prop :=
  m.type < 4 ∧ m.messageID < 65536

/-- TCP framing base constants (src/messagetcp.go). -/
def TCP_MESSAGE_LEN13_BASE : Nat := 13

/-- See `TCP_MESSAGE_LEN13_BASE`. -/
def TCP_MESSAGE_LEN14_BASE : Nat := 269

/-- See `TCP_MESSAGE_LEN13_BASE`. -/
def TCP_MESSAGE_LEN15_BASE : Nat := 65805

/-- See `TCP_MESSAGE_LEN13_BASE`. -/
def TCP_MESSAGE_MAX_LEN : Nat := 4295033101

/-- The length-nibble / extended-length computation of
`TcpMessage.MarshalBinary` (src/messagetcp.go): result is (lenNib,
extLenBytes).  The source repeats the condition
`buf.Len() < TCP_MESSAGE_LEN14_BASE` on the first two branches, so the
second branch (nibble 13 with a one-byte extension) is unreachable and
every n below 269 takes `lenNib = uint8(buf.Len())` (truncated to a
byte); the chain is reproduced verbatim.  When no branch fires the Go
variables keep their zero values. -/
def tcpLenNib (n : Nat) : Nat × List Nat :=
  if n < TCP_MESSAGE_LEN14_BASE then (n % 256, [])
  else if n < TCP_MESSAGE_LEN14_BASE then (13, [(n - TCP_MESSAGE_LEN13_BASE) % 256])
  else if n < TCP_MESSAGE_LEN15_BASE then
    (14, [(n - TCP_MESSAGE_LEN14_BASE) % 65536 / 256, (n - TCP_MESSAGE_LEN14_BASE) % 256])
  else if n < TCP_MESSAGE_MAX_LEN then
    (15, [(n - TCP_MESSAGE_LEN15_BASE) % 4294967296 / 16777216,
          (n - TCP_MESSAGE_LEN15_BASE) % 16777216 / 65536,
          (n - TCP_MESSAGE_LEN15_BASE) % 65536 / 256,
          (n - TCP_MESSAGE_LEN15_BASE) % 256])
  else (0, [])

/-- Modelled from the spec: `writeOpts` is called by
`TcpMessage.MarshalBinary` (src/messagetcp.go) but its definition is not
among the source files; per the spec the stream framing carries options
in the same RFC 7252 nibble scheme as the datagram framing, so it is the
datagram option emission starting from delta base 0. -/
def writeOpts (os : List COption) : List Nat :=
  encodeOpts 0 os

/-- From `TcpMessage.MarshalBinary` (src/messagetcp.go): the body is the
stably sorted options followed by 0xFF and the payload when non-empty;
the header is the (length nibble | token-length nibble) byte, the
extended length bytes, the code, and the token. -/
def TcpMessage.MarshalBinary (m : Message) : List Nat :=
  let body := writeOpts (sortOpts m.opts) ++ payloadSection m.payload
  let nib := tcpLenNib body.length
  (m.token.length % 16 ||| nib.1 * 16 % 256) :: (nib.2 ++ m.code :: m.token) ++ body

/-- From `msgTcpInfo` (src/messagetcp.go).  `typ` is never assigned by
`readTcpMsgInfo` and keeps its zero value. -/
structure MsgTcpInfo : Type where
  typ : Nat
  token : List Nat
  code : Nat
  hdrLen : Nat
  totLen : Nat
deriving DecidableEq

/-- Errors of the TCP reassembly path.  `eof` and `unexpectedEof` are
io.EOF and io.ErrUnexpectedEOF as returned by `io.ReadFull` and
`binary.Read`; `parseErr` wraps an option-parsing failure from the body;
`lengthMismatch` is the length check of `TcpMessage.UnmarshalBinary`. -/
inductive TErr : Type where
  | eof
  | unexpectedEof
  | parseErr (e : UErr)
  | lengthMismatch
deriving DecidableEq

/-- `io.ReadFull` on a byte-queue reader positioned at `pos`: reading
zero bytes always succeeds; with no bytes available the result is
io.EOF; with some but fewer than `n` bytes it is io.ErrUnexpectedEOF.
`binary.Read` of a fixed-size integer has the same behaviour. -/
def readN (data : List Nat) (pos n : Nat) : Except TErr (List Nat × Nat) :=
  if n = 0 then .ok ([], pos)
  else if data.length ≤ pos then .error .eof
  else if data.length < pos + n then .error .unexpectedEof
  else .ok ((data.drop pos).take n, pos + n)

/-- From `readTcpMsgInfo` (src/messagetcp.go): read the first byte, split
it into length nibble and token length, read the extended length per the
nibble (one, two or four bytes), compute the total message length, then
read the code byte and the token.  Returns the info record and the new
read position. -/
def readTcpMsgInfo (data : List Nat) (pos : Nat) : Except TErr (MsgTcpInfo × Nat) :=
  match readN data pos 1 with
  | .error e => .error e
  | .ok (fb, pos1) =>
    let firstByte := fb.headD 0
    let lenNib := firstByte / 16
    let tkl := firstByte % 16
    let extRead : Except TErr (Nat × Nat) :=
      if lenNib < TCP_MESSAGE_LEN13_BASE then .ok (lenNib, pos1)
      else if lenNib = 13 then
        match readN data pos1 1 with
        | .error e => .error e
        | .ok (e1, p) => .ok (TCP_MESSAGE_LEN13_BASE + e1.headD 0, p)
      else if lenNib = 14 then
        match readN data pos1 2 with
        | .error e => .error e
        | .ok (e2, p) => .ok (TCP_MESSAGE_LEN14_BASE + (e2.headD 0 * 256 + (e2.drop 1).headD 0), p)
      else if lenNib = 15 then
        match readN data pos1 4 with
        | .error e => .error e
        | .ok (e4, p) =>
          .ok (TCP_MESSAGE_LEN15_BASE +
            (e4.headD 0 * 16777216 + (e4.drop 1).headD 0 * 65536 +
             (e4.drop 2).headD 0 * 256 + (e4.drop 3).headD 0), p)
      else .ok (0, pos1)
    match extRead with
    | .error e => .error e
    | .ok (opLen, pos2) =>
      let totLen := (pos2 - pos) + 1 + tkl + opLen
      match readN data pos2 1 with
      | .error e => .error e
      | .ok (cb, pos3) =>
        match readN data pos3 tkl with
        | .error e => .error e
        | .ok (tok, pos4) =>
          .ok ({ typ := 0, token := tok, code := cb.headD 0,
                 hdrLen := pos4 - pos, totLen := totLen }, pos4)

/-- Modelled from the spec: `parseBody` is called by `readTcpMsgBody`
(src/messagetcp.go) but its definition is not among the source files;
per the spec the body is the RFC 7252 option stream followed by the
optional 0xFF payload marker, i.e. the datagram option loop from delta
base 0. -/
def parseBody (b : List Nat) : Except UErr (List COption × List Nat) :=
  parseOpts b.length b 0

/-- From `readTcpMsgBody` (src/messagetcp.go): read `totLen - hdrLen`
body bytes with `io.ReadFull`, then parse options and payload. -/
def readTcpMsgBody (mti : MsgTcpInfo) (data : List Nat) (pos : Nat) :
    Except TErr ((List COption × List Nat) × Nat) :=
  match readN data pos (mti.totLen - mti.hdrLen) with
  | .error e => .error e
  | .ok (b, pos1) =>
    match parseBody b with
    | .error e => .error (.parseErr e)
    | .ok op => .ok (op, pos1)

/-- From `Decode` (src/messagetcp.go) together with `TcpMessage.fill`:
header info, then body; the message type is `mti.typ` (always 0) and the
message id is never assigned (zero value). -/
def Decode (data : List Nat) (pos : Nat) : Except TErr (Message × Nat) :=
  match readTcpMsgInfo data pos with
  | .error e => .error e
  | .ok (mti, pos1) =>
    match readTcpMsgBody mti data pos1 with
    | .error e => .error e
    | .ok ((o, p), pos2) =>
      .ok ({ type := mti.typ, code := mti.code, messageID := 0,
             token := mti.token, payload := p, opts := o }, pos2)

/-- From `PullTcp` (src/messagetcp.go): run `Decode` on the front of the
queue; only io.EOF is treated as an incomplete message (no message, the
unchanged buffer, no error); any other failure is returned as an error
with the unchanged buffer; on success the consumed bytes (the reader
position) are trimmed from the front. -/
def PullTcp (data : List Nat) : Option Message × List Nat × Option TErr :=
  match Decode data 0 with
  | .error .eof => (none, data, none)
  | .error e => (none, data, some e)
  | .ok (m, pos) => (some m, data.drop pos, none)

/-- From `type Block struct` (src/blockwise.go): more-flag, block number
and block size. -/
structure Block : Type where
  more : Bool
  num : Nat
  size : Nat
deriving DecidableEq

/-- Floor base-2 logarithm by structural recursion on a fuel argument
(the callers pass the number itself, which always suffices since the
argument halves each step); kernel-reducible unlike `Nat.log2`. -/
def log2fuel : Nat → Nat → Nat
  | 0, _ => 0
  | fuel + 1, n => if n ≥ 2 then log2fuel fuel (n / 2) + 1 else 0

/-- From `Block.MarshalBinary` (src/blockwise.go):
`value = num<<4 | uint32(log2(size) - 4) | (more ? 8 : 0)` packed into a
uint32 (the `binary.Write`/`Uint32` pair is the identity on the value).
The source computes the exponent as
`uint32((math.Log(float64(size)) / math.Log(2)) - 4)`; for the
power-of-two sizes 16..1024 that the block option carries, the float
computation is exact and equals the floor base-2 logarithm minus 4,
which is how it is written here. -/
def Block.MarshalBinary (b : Block) : Nat :=
  (b.num * 16 % 4294967296 ||| (log2fuel b.size b.size - 4)) ||| (if b.more then 8 else 0)

/-- From `ParseBlock` (src/blockwise.go): a single-element value list is
required; bits [31:4] are the number, bit 3 the more-flag, and the size
is `2^((value & 0x07) + 4)` (`math.Pow` is exact on these arguments). -/
def ParseBlock (data : List Nat) : Option Block :=
  match data with
  | [v] => some { more := decide (v &&& 8 > 0), num := v / 16, size := 2 ^ ((v &&& 7) + 4) }
  | _ => none

/-- From `pathMatch` (src/servmux.go): empty patterns match nothing;
patterns not ending in a slash (byte 47) match by equality; patterns
ending in a slash match every path having them as a prefix.  Paths and
patterns are byte strings. -/
def pathMatch (pattern path : List Nat) : Bool :=
  if pattern.length = 0 then false
  else
    if pattern.getD (pattern.length - 1) 0 ≠ 47 then pattern == path
    else decide (path.length ≥ pattern.length) && path.take pattern.length == pattern

/-- From `ServeMux.Handle` (src/servmux.go): leading slashes are stripped
from the pattern before registration. -/
def handlePattern (p : List Nat) : List Nat :=
  p.dropWhile fun x => x = 47

/-- The accumulator loop of `ServeMux.match` (src/servmux.go): scan all
entries, keeping the handler of the longest matching pattern (an entry
replaces the current one when none is held yet or its pattern is
strictly longer).  Go iterates the map in unspecified order; the model
takes the entries as a list and the dispatch theorem is proved for every
order of the registered patterns. -/
def muxMatchGo (path : List Nat) (entries : List (List Nat × α))
    (acc : Option (α × List Nat)) (n : Nat) : Option (α × List Nat) :=
  match entries with
  | [] => acc
  | (k, v) :: rest =>
    if ¬ pathMatch k path then muxMatchGo path rest acc n
    else if acc.isNone || decide (k.length > n) then muxMatchGo path rest (some (v, k)) k.length
    else muxMatchGo path rest acc n

/-- `ServeMux.match` (src/servmux.go): most specific (longest) matching
pattern wins. -/
def muxMatch (entries : List (List Nat × α)) (path : List Nat) : Option (α × List Nat) :=
  muxMatchGo path entries none 0

/-- From `Message.optionStrings` (src/message.go): the string values held
by the given option number, in insertion order.  (Go type-asserts
`o.(string)` and would panic on another value shape; the callers only
reach string-typed options.) -/
def Message.optionStrings (m : Message) (oid : Nat) : List (List Nat) :=
  m.opts.filterMap fun o =>
    if o.id = oid then
      match o.val with
      | .str s => some s
      | _ => none
    else none

/-- `Message.Path` (src/message.go): the URIPath (11) segments. -/
def Message.Path (m : Message) : List (List Nat) :=
  m.optionStrings 11

/-- `Message.PathString` (src/message.go): the segments joined by
slashes. -/
def Message.PathString (m : Message) : List Nat :=
  List.intercalate [47] m.Path

/-- `Message.IsConfirmable` (src/message.go). -/
def Message.IsConfirmable (m : Message) : Bool :=
  m.type = 0

/-- From `Message.IsObserver` (src/message.go): the loop body returns on
its first iteration, so the result only reflects whether the FIRST
option has id Observe (6); an empty option list gives false. -/
def Message.IsObserver (m : Message) : Bool :=
  match m.opts with
  | o :: _ => o.id = 6
  | [] => false

/-- The externally visible effect of `handlePacket` (src/server.go) on
one parsed message: either the acknowledgement is forwarded to the hub,
or the packet is dispatched, recording whether an observer was
registered and which reply (if any) was transmitted. -/
inductive PacketAction : Type where
  | hubAck
  | act (registers : Bool) (sent : Option Message)
deriving DecidableEq

/-- Whether the action registered an observer. -/
def PacketAction.registers : PacketAction → Bool
  | .hubAck => false
  | .act r _ => r

/-- From `handlePacket` (src/server.go): acknowledgements go to the hub
and nothing else happens; otherwise an observer is registered exactly
when `IsObserver` holds, the path is matched against the mux, a matched
handler produces the reply (transmitted when non-nil), and an unmatched
confirmable request is answered with an acknowledgement carrying code
NotFound (132) and no payload while an unmatched non-confirmable request
gets no reply.  `serve` stands for `Handler.ServeCOAP`. -/
def handlePacket (serve : α → Message → Option Message)
    (entries : List (List Nat × α)) (msg : Message) : PacketAction :=
  if msg.type = 2 then .hubAck
  else
    let registers := msg.IsObserver
    match muxMatch entries msg.PathString with
    | some (h, _) => .act registers (serve h msg)
    | none =>
      if msg.IsConfirmable then
        .act registers (some { type := 2, code := 132, messageID := 0,
                               token := [], payload := [], opts := [] })
      else .act registers none

/-- Retransmitter constants (src/serverNew.go), in milliseconds. -/
def ACK_TIMEOUT : Nat := 2000

/-- See `ACK_TIMEOUT`. -/
def ACK_MAX_TIMEOUT : Nat := 3000

/-- See `ACK_TIMEOUT`. -/
def MAX_RETRANSMIT : Nat := 4

/-- From `randTimeout` (src/serverNew.go):
`rand.Intn(ACK_MAX_TIMEOUT-ACK_TIMEOUT) + ACK_TIMEOUT` milliseconds; the
random draw is passed in as `r` and reduced modulo the interval width,
matching the range of `rand.Intn`. -/
def randTimeout (r : Nat) : Nat :=
  r % (ACK_MAX_TIMEOUT - ACK_TIMEOUT) + ACK_TIMEOUT

/-- The observable state of one in-flight confirmable record
(src/serverNew.go): the retransmission counter and current timeout of
the `flight`, the number of transmissions made to the peer, the timeouts
waited so far, whether the key is still in `Retransmitter.inflight`, and
whether any failure has been reported to the owner (the `Record` API has
no channel or callback for that, so the loop can never set it). -/
structure FlightState : Type where
  retrans : Nat
  timeout : Nat
  sends : Nat
  waits : List Nat
  inflight : Bool
  reported : Bool
deriving DecidableEq

/-- The goroutine loop of `Retransmitter.Record` (src/serverNew.go)
specialised to the run in which no acknowledgement ever arrives: each
`select` then deterministically takes the `time.After(timeout)` branch,
which increments the counter, doubles the timeout and resends; the loop
exits when the counter reaches MAX_RETRANSMIT.  Nothing in the loop
deletes the inflight record (deletion sits only in the ack branch) and
nothing reports a failure.  `fuel` is the remaining iteration budget. -/
def flightLoopNoAck (fuel : Nat) (s : FlightState) : FlightState :=
  match fuel with
  | 0 => s
  | fuel + 1 =>
    if s.retrans < MAX_RETRANSMIT then
      flightLoopNoAck fuel
        { retrans := s.retrans + 1, timeout := s.timeout * 2, sends := s.sends + 1,
          waits := s.waits ++ [s.timeout], inflight := s.inflight, reported := s.reported }
    else s

/-- `Retransmitter.Record` for a confirmable message that is never
acknowledged, starting from the initial timeout `t`: the record is
inserted, the initial transmission counts one send, and the goroutine
runs `flightLoopNoAck` to completion (MAX_RETRANSMIT iterations exhaust
the budget). -/
def recordNoAck (t : Nat) : FlightState :=
  flightLoopNoAck MAX_RETRANSMIT
    { retrans := 0, timeout := t, sends := 1, waits := [], inflight := true, reported := false }

instance (o : COption) : Decidable o.Canonical :=
  match o with
  | ⟨i, .uint v⟩ =>
    inferInstanceAs (Decidable (i ∈ coapRegistry ∧ i ∈ intOptions ∧ v < 4294967296))
  | ⟨i, .str s⟩ =>
    inferInstanceAs (Decidable (i ∈ coapRegistry ∧ i ∈ stringOptions ∧ ∀ x ∈ s, x < 256))
  | ⟨i, .bytes l⟩ =>
    inferInstanceAs
      (Decidable (i ∈ coapRegistry ∧ i ∉ intOptions ∧ i ∉ stringOptions ∧ ∀ x ∈ l, x < 256))

theorem or16_eq (d l : Nat) (hl : l < 16) : d * 16 ||| l = d * 16 + l := by
  have h := Nat.mul_add_lt_is_or (show l < 2 ^ 4 by omega) d
  have e : (2 : Nat) ^ 4 * d = d * 16 := by ring
  rw [e] at h
  exact h.symm

theorem or64_eq (t k : Nat) (ht : t < 4) (hk : k < 16) :
    64 ||| t * 16 % 256 ||| k % 16 = 64 + t * 16 + k := by
  have h1 : t * 16 % 256 = t * 16 := by omega
  have h2 : k % 16 = k := by omega
  rw [h1, h2]
  have h3 : (64 : Nat) ||| t * 16 = 64 + t * 16 := by
    have h := Nat.mul_add_lt_is_or (show t * 16 < 2 ^ 6 by omega) 1
    have e : (2 : Nat) ^ 6 * 1 = 64 := by norm_num
    rw [e] at h
    exact h.symm
  rw [h3]
  calc (64 + t * 16) ||| k = (4 + t) * 16 ||| k := by ring_nf
    _ = (4 + t) * 16 + k := or16_eq _ _ hk
    _ = 64 + t * 16 + k := by ring

theorem and_low (x m : Nat) (hm : m < 16) : x &&& m = x % 16 &&& m := by
  apply Nat.eq_of_testBit_eq
  intro i
  have e16 : (16 : Nat) = 2 ^ 4 := by norm_num
  rw [Nat.testBit_and, Nat.testBit_and, e16, Nat.testBit_mod_two_pow]
  by_cases hi : i < 4
  · simp [hi]
  · have hm2 : m < 2 ^ i := lt_of_lt_of_le hm (by
      calc (16 : Nat) = 2 ^ 4 := by norm_num
        _ ≤ 2 ^ i := Nat.pow_le_pow_right (by norm_num) (by omega))
    simp [hi, Nat.testBit_lt_two_pow hm2]

theorem and_low_mod (a c m : Nat) (hc : c < 16) (hm : m < 16) :
    (a * 16 + c) &&& m = c &&& m := by
  rw [and_low _ _ hm]
  have : (a * 16 + c) % 16 = c := by omega
  rw [this]

theorem decodeInt_encodeInt (v : Nat) (hv : v < 4294967296) :
    decodeInt (encodeInt v) = v := by
  unfold encodeInt decodeInt
  split_ifs with h0 h1 h2 h3 <;> simp [List.foldl] <;> omega

theorem string_not_int (x : Nat) (hx : x ∈ stringOptions) : x ∉ intOptions := by
  fin_cases hx <;> decide

theorem decodeOptVal_toBytes (o : COption) (hc : o.Canonical) :
    decodeOptVal o.id o.val.toBytes = o.val := by
  obtain ⟨hreg, hv⟩ := hc
  unfold decodeOptVal OptVal.toBytes
  match h : o.val with
  | .uint v =>
    rw [h] at hv
    rw [if_pos hv.1]
    rw [decodeInt_encodeInt v hv.2]
  | .str s =>
    rw [h] at hv
    rw [if_neg (string_not_int _ hv.1), if_pos hv.1]
  | .bytes l =>
    rw [h] at hv
    rw [if_neg hv.1, if_neg hv.2.1]

theorem extendOpt_fst_le (x : Nat) : (extendOpt x).1 ≤ 14 := by
  unfold extendOpt
  split_ifs <;> simp
  omega

theorem parseExt_extendOpt (x : Nat) (hx : x ≤ 65804) (rest : List Nat) :
    parseExtOpt (extendOpt x).1 (extBytes (extendOpt x).1 (extendOpt x).2 ++ rest) =
      .ok (x, rest) := by
  unfold extendOpt
  by_cases h13 : x ≥ 13
  · by_cases h269 : x ≥ 269
    · rw [if_pos h13, if_pos h269]
      unfold extBytes parseExtOpt
      have e1 : (x - 269) % 65536 = x - 269 := by omega
      simp only [e1]
      norm_num
      omega
    · rw [if_pos h13, if_neg h269]
      unfold extBytes parseExtOpt
      have e1 : (x - 13) % 256 = x - 13 := by omega
      simp only [e1]
      norm_num
      omega
  · rw [if_neg h13]
    unfold extBytes parseExtOpt
    have hne13 : x ≠ 13 := by omega
    have hne14 : x ≠ 14 := by omega
    simp [hne13, hne14]

theorem insertOpt_perm (o : COption) (l : List COption) : (insertOpt o l).Perm (o :: l) := by
  induction l with
  | nil => simp [insertOpt]
  | cons p ps ih =>
    unfold insertOpt
    split_ifs with h
    · exact List.Perm.refl _
    · exact (List.Perm.cons p ih).trans (List.Perm.swap o p ps)

theorem sortOpts_perm (l : List COption) : (sortOpts l).Perm l := by
  induction l with
  | nil => simp [sortOpts]
  | cons o os ih =>
    unfold sortOpts
    exact (insertOpt_perm o (sortOpts os)).trans (List.Perm.cons o ih)

theorem sortOpts_mem (a : COption) (l : List COption) : a ∈ sortOpts l ↔ a ∈ l :=
  (sortOpts_perm l).mem_iff

theorem sortedFrom_insertOpt (o : COption) (l : List COption) :
    ∀ p : Nat, SortedFrom p l → p ≤ o.id → SortedFrom p (insertOpt o l) := by
  induction l with
  | nil => intro p _ hp; exact ⟨hp, trivial⟩
  | cons q qs ih =>
    intro p hs hp
    unfold insertOpt
    split_ifs with h
    · exact ⟨hp, h, hs.2⟩
    · exact ⟨hs.1, ih q.id hs.2 (by omega)⟩

theorem sortedFrom_sortOpts (l : List COption) : SortedFrom 0 (sortOpts l) := by
  induction l with
  | nil => trivial
  | cons o os ih => exact sortedFrom_insertOpt o (sortOpts os) 0 ih (Nat.zero_le _)

theorem insertOpt_filter (o : COption) (l : List COption) (k : Nat) :
    (insertOpt o l).filter (fun p => p.id == k) =
      if o.id = k then o :: l.filter (fun p => p.id == k)
      else l.filter (fun p => p.id == k) := by
  induction l with
  | nil =>
    by_cases hk : o.id = k <;> simp [insertOpt, List.filter_cons, hk]
  | cons q qs ih =>
    by_cases h : o.id ≤ q.id
    · simp only [insertOpt, if_pos h]
      by_cases hk : o.id = k <;> simp [List.filter_cons, hk]
    · simp only [insertOpt, if_neg h]
      by_cases hk : o.id = k
      · have hq : ¬ q.id = k := by omega
        simp [List.filter_cons, hk, hq, ih]
      · simp [List.filter_cons, hk, ih]

theorem sortOpts_filter (l : List COption) (k : Nat) :
    (sortOpts l).filter (fun p => p.id == k) = l.filter (fun p => p.id == k) := by
  induction l with
  | nil => rfl
  | cons o os ih =>
    unfold sortOpts
    rw [insertOpt_filter]
    by_cases hk : o.id = k <;> simp [List.filter_cons, hk, ih]

theorem parseExtOpt_err (opt : Nat) (b : List Nat) (e : UErr)
    (h : parseExtOpt opt b = .error e) : e = .panicOOB := by
  unfold parseExtOpt at h
  split_ifs at h <;> split at h <;> simp_all

theorem parseOpts_err (fuel : Nat) :
    ∀ (b : List Nat) (prev : Nat) (e : UErr), parseOpts fuel b prev = .error e →
      e = .extMarker ∨ e = .truncated ∨ e = .panicOOB := by
  induction fuel with
  | zero =>
    intro b prev e h
    cases b with
    | nil => simp [parseOpts] at h
    | cons b0 rest =>
      simp only [parseOpts] at h
      by_cases h255 : b0 = 255 <;> simp [h255] at h
      tauto
  | succ fuel ih =>
    intro b prev e h
    cases b with
    | nil => simp [parseOpts] at h
    | cons b0 rest =>
      simp only [parseOpts] at h
      by_cases h255 : b0 = 255
      · simp [h255] at h
      · rw [if_neg h255] at h
        split_ifs at h with hmark
        · simp at h; tauto
        · split at h
          · next e1 heq =>
              simp at h
              subst h
              exact Or.inr (Or.inr (parseExtOpt_err _ _ _ heq))
          · next pr heq =>
              split at h
              · next e2 heq2 =>
                  simp at h
                  subst h
                  exact Or.inr (Or.inr (parseExtOpt_err _ _ _ heq2))
              · next pr2 heq2 =>
                  split_ifs at h with htr
                  · simp at h; tauto
                  · split at h
                    · next e3 heq3 =>
                        simp at h
                        subst h
                        exact ih _ _ _ heq3
                    · next heq3 => simp at h

theorem registry_le (x : Nat) (hx : x ∈ coapRegistry) : x ≤ 60 := by
  fin_cases hx <;> decide

theorem parseOpts_nil (fuel prev : Nat) : parseOpts fuel [] prev = .ok ([], []) := by
  cases fuel <;> simp [parseOpts]

theorem parseOpts_marker (fuel : Nat) (tail : List Nat) (prev : Nat) :
    parseOpts fuel (255 :: tail) prev = .ok ([], tail) := by
  cases fuel <;> simp [parseOpts]

theorem parseOpts_encodeOpts (os : List COption) :
    ∀ (prev : Nat) (pl : List Nat) (fuel : Nat),
      SortedFrom prev os →
      (∀ o ∈ os, o.Canonical) →
      (∀ o ∈ os, o.val.toBytes.length ≤ 65804) →
      (encodeOpts prev os ++ payloadSection pl).length ≤ fuel →
      parseOpts fuel (encodeOpts prev os ++ payloadSection pl) prev = .ok (os, pl) := by
  induction os with
  | nil =>
    intro prev pl fuel _ _ _ _
    match pl with
    | [] => simp [encodeOpts, payloadSection, parseOpts_nil]
    | p0 :: pr => simp [encodeOpts, payloadSection, parseOpts_marker]
  | cons o os ih =>
    intro prev pl fuel hs hc hl hf
    obtain ⟨hpo, hs2⟩ := hs
    have hco : o.Canonical := hc o (List.mem_cons_self o os)
    have hlo : o.val.toBytes.length ≤ 65804 := hl o (List.mem_cons_self o os)
    have hid60 : o.id ≤ 60 := registry_le o.id hco.1
    have hΔ : o.id - prev ≤ 65804 := by omega
    have hdle := extendOpt_fst_le (o.id - prev)
    have hlle := extendOpt_fst_le o.val.toBytes.length
    have hbeq : (extendOpt (o.id - prev)).1 * 16 % 256 |||
        (extendOpt o.val.toBytes.length).1 % 256
        = (extendOpt (o.id - prev)).1 * 16 + (extendOpt o.val.toBytes.length).1 := by
      have h1 : (extendOpt (o.id - prev)).1 * 16 % 256 = (extendOpt (o.id - prev)).1 * 16 := by
        omega
      have h2 : (extendOpt o.val.toBytes.length).1 % 256 =
          (extendOpt o.val.toBytes.length).1 := by omega
      rw [h1, h2, or16_eq _ _ (by omega)]
    have hfn : (encodeOpts o.id os ++ payloadSection pl).length + 1 ≤ fuel := by
      simp only [encodeOpts, optHeader, List.cons_append, List.append_assoc,
        List.length_append, List.length_cons] at hf ⊢
      omega
    simp only [encodeOpts, optHeader, List.cons_append, List.append_assoc]
    rw [hbeq]
    cases fuel with
    | zero => omega
    | succ f =>
      simp only [parseOpts]
      have hne255 : ¬ ((extendOpt (o.id - prev)).1 * 16 +
          (extendOpt o.val.toBytes.length).1 = 255) := by omega
      rw [if_neg hne255]
      have hdiv : ((extendOpt (o.id - prev)).1 * 16 +
          (extendOpt o.val.toBytes.length).1) / 16 = (extendOpt (o.id - prev)).1 := by omega
      have hmod : ((extendOpt (o.id - prev)).1 * 16 +
          (extendOpt o.val.toBytes.length).1) % 16 = (extendOpt o.val.toBytes.length).1 := by
        omega
      rw [hdiv, hmod]
      have hmark : ¬ ((extendOpt (o.id - prev)).1 = 15 ∨
          (extendOpt o.val.toBytes.length).1 = 15) := by omega
      rw [if_neg hmark]
      rw [parseExt_extendOpt (o.id - prev) hΔ]
      simp only
      rw [parseExt_extendOpt o.val.toBytes.length hlo]
      simp only
      have htr : ¬ ((o.val.toBytes ++ (encodeOpts o.id os ++ payloadSection pl)).length <
          o.val.toBytes.length) := by
        simp [List.length_append]
      rw [if_neg htr]
      rw [List.take_left, List.drop_left]
      have hprev : (prev + (o.id - prev)) % 256 = o.id := by omega
      rw [hprev]
      rw [decodeOptVal_toBytes o hco]
      rw [ih o.id pl f hs2 (fun p hp => hc p (List.mem_cons_of_mem o hp))
        (fun p hp => hl p (List.mem_cons_of_mem o hp)) (by omega)]

theorem roundtrip_core (m : Message)
    (ht : m.type < 4) (hmid : m.messageID < 65536) (htok : m.token.length ≤ 8)
    (hcan : ∀ o ∈ m.opts, o.Canonical)
    (hlen : ∀ o ∈ m.opts, o.val.toBytes.length ≤ 65804)
    (hsize : 6 ≤ m.MarshalBinary.length) :
    Message.UnmarshalBinary m.MarshalBinary = .ok { m with opts := sortOpts m.opts } := by
  have htl : m.token.length < 16 := by omega
  have hhdr := or64_eq m.type m.token.length ht htl
  have hlen6 : ¬ (m.MarshalBinary.length < 6) := by omega
  unfold Message.UnmarshalBinary
  rw [if_neg hlen6]
  unfold Message.MarshalBinary
  simp only
  rw [hhdr]
  have hv : ¬ ((64 + m.type * 16 + m.token.length) / 64 ≠ 1) := by omega
  rw [if_neg hv]
  have hk : (64 + m.type * 16 + m.token.length) % 16 = m.token.length := by omega
  rw [hk]
  rw [if_neg (show ¬ (m.token.length > 8) by omega)]
  split_ifs with hq
  case pos => exfalso; simp [List.length_append] at hq
  rw [List.append_assoc, List.take_left, List.drop_left]
  rw [parseOpts_encodeOpts (sortOpts m.opts) 0 m.payload
    (encodeOpts 0 (sortOpts m.opts) ++ payloadSection m.payload).length
    (sortedFrom_sortOpts m.opts)
    (fun o ho => hcan o ((sortOpts_mem o m.opts).1 ho))
    (fun o ho => hlen o ((sortOpts_mem o m.opts).1 ho))
    (Nat.le_refl _)]
  simp only
  have hT : (64 + m.type * 16 + m.token.length) / 16 % 4 = m.type := by omega
  have hM : m.messageID / 256 % 256 * 256 + m.messageID % 256 = m.messageID := by omega
  rw [hT, hM]

theorem stepA1_err (c : Nat) (rest : List Nat) (e : AErr)
    (h : (if c = 13 then
            match rest with
            | x :: r => Except.ok (13 + x, r)
            | [] => Except.error AErr.panicOOB
          else Except.ok (c, rest) : Except AErr (Nat × List Nat)) = .error e) :
    e = .panicOOB := by
  split_ifs at h
  split at h
  · simp_all
  · simp_all

theorem stepA2_err (l1 : Nat) (b1 : List Nat) (e : AErr)
    (h : (if l1 = 14 then
            if b1.length < 2 then Except.error AErr.panicOOB
            else Except.ok ((b1.length - 2) % 65536, b1.drop 2)
          else Except.ok (l1, b1) : Except AErr (Nat × List Nat)) = .error e) :
    e = .panicOOB := by
  split_ifs at h
  simp_all

theorem parseLoopA_err (fuel : Nat) :
    ∀ (b : List Nat) (prev : Nat) (e : AErr), parseLoopA fuel b prev = .error e →
      e = .truncated ∨ e = .panicOOB := by
  induction fuel with
  | zero =>
    intro b prev e h
    cases b with
    | nil => simp [parseLoopA] at h
    | cons b0 rest =>
      simp only [parseLoopA] at h
      by_cases h255 : b0 = 255 <;> simp [h255] at h
      tauto
  | succ fuel ih =>
    intro b prev e h
    cases b with
    | nil => simp [parseLoopA] at h
    | cons b0 rest =>
      simp only [parseLoopA] at h
      by_cases h255 : b0 = 255
      · simp [h255] at h
      · rw [if_neg h255] at h
        split at h
        · next e1 heq =>
            simp at h
            subst h
            exact Or.inr (stepA1_err _ _ _ heq)
        · next pr heq =>
            split at h
            · next e2 heq2 =>
                simp at h
                subst h
                exact Or.inr (stepA2_err _ _ _ heq2)
            · next pr2 heq2 =>
                split_ifs at h with htr
                · simp at h; tauto
                · split at h
                  · next e3 heq3 =>
                      simp at h
                      subst h
                      exact ih _ _ _ heq3
                  · next heq3 => simp at h

theorem parseMessage_result (d0 d1 d2 d3 : Nat) (rest : List Nat) (e : AErr)
    (hv : d0 / 64 = 1) (htk : d0 % 16 ≤ 8)
    (h : parseMessage (d0 :: d1 :: d2 :: d3 :: rest) = .error e) :
    e = .truncated ∨ e = .panicOOB := by
  unfold parseMessage at h
  rw [if_neg (show ¬ ((d0 :: d1 :: d2 :: d3 :: rest).length < 4) by
    simp only [List.length_cons]; omega)] at h
  simp only at h
  rw [if_neg (show ¬ (d0 / 64 ≠ 1) by omega)] at h
  rw [if_neg (show ¬ (d0 % 16 > 8) by omega)] at h
  split at h
  · next e3 heq =>
      simp at h
      subst h
      exact parseLoopA_err _ _ _ _ heq
  · next heq => simp at h

theorem unmarshal_result (d0 d1 d2 d3 : Nat) (rest : List Nat) (e : UErr)
    (hrest : 2 ≤ rest.length) (hv : d0 / 64 = 1) (htk : d0 % 16 ≤ 8)
    (h : Message.UnmarshalBinary (d0 :: d1 :: d2 :: d3 :: rest) = .error e) :
    e = .extMarker ∨ e = .truncated ∨ e = .panicOOB := by
  unfold Message.UnmarshalBinary at h
  rw [if_neg (show ¬ ((d0 :: d1 :: d2 :: d3 :: rest).length < 6) by
    simp only [List.length_cons]; omega)] at h
  simp only at h
  rw [if_neg (show ¬ (d0 / 64 ≠ 1) by omega)] at h
  rw [if_neg (show ¬ (d0 % 16 > 8) by omega)] at h
  split_ifs at h with hrl
  · simp at h
    subst h
    simp
  · split at h
    · next e3 heq =>
        simp at h
        subst h
        exact parseOpts_err _ _ _ _ heq
    · next heq => simp at h

/-- C3: datagram decode rejects exactly the malformed headers the spec
lists.  The claim holds verbatim for `parseMessage` (src/message.go):
inputs shorter than 4 bytes fail with the short-packet error, version
bits other than 1 fail with the invalid-version error, a token-length
nibble above 8 fails with the invalid-token-length error, any input of
length at least 4 satisfying both header conditions passes the header
checks (any later failure is a truncation or a runtime panic, never one
of the three header errors), and concrete well-formed 4-byte and 5-byte
messages decode successfully.  The second decoder in the repository,
`Message.UnmarshalBinary` (src/client.go), differs as amended: it
rejects every input shorter than 6 bytes with the short-packet error (so
well-formed 4- and 5-byte messages fail there, see the counterexample)
and otherwise performs the same version and token-length checks. -/
theorem decode_header_checks :
    (∀ data : List Nat, data.length < 4 → parseMessage data = .error .shortPacket) ∧
    (∀ d0 d1 d2 d3 : Nat, ∀ rest : List Nat, d0 / 64 ≠ 1 →
        parseMessage (d0 :: d1 :: d2 :: d3 :: rest) = .error .invalidVersion) ∧
    (∀ d0 d1 d2 d3 : Nat, ∀ rest : List Nat, d0 / 64 = 1 → d0 % 16 > 8 →
        parseMessage (d0 :: d1 :: d2 :: d3 :: rest) = .error .invalidTokenLen) ∧
    (∀ d0 d1 d2 d3 : Nat, ∀ rest : List Nat, d0 / 64 = 1 → d0 % 16 ≤ 8 →
        parseMessage (d0 :: d1 :: d2 :: d3 :: rest) ≠ .error .shortPacket ∧
        parseMessage (d0 :: d1 :: d2 :: d3 :: rest) ≠ .error .invalidVersion ∧
        parseMessage (d0 :: d1 :: d2 :: d3 :: rest) ≠ .error .invalidTokenLen) ∧
    parseMessage [64, 1, 48, 57] =
      .ok { type := 0, code := 1, messageID := 12345, token := [], payload := [], opts := [] } ∧
    parseMessage [64, 1, 48, 57, 160] =
      .ok { type := 0, code := 1, messageID := 12345, token := [], payload := [],
            opts := [⟨10, .bytes []⟩] } ∧
    (∀ data : List Nat, data.length < 6 → Message.UnmarshalBinary data = .error .shortPacket) ∧
    (∀ d0 d1 d2 d3 : Nat, ∀ rest : List Nat, 2 ≤ rest.length → d0 / 64 ≠ 1 →
        Message.UnmarshalBinary (d0 :: d1 :: d2 :: d3 :: rest) = .error .invalidVersion) ∧
    (∀ d0 d1 d2 d3 : Nat, ∀ rest : List Nat, 2 ≤ rest.length → d0 / 64 = 1 → d0 % 16 > 8 →
        Message.UnmarshalBinary (d0 :: d1 :: d2 :: d3 :: rest) = .error .invalidTokenLen) ∧
    (∀ d0 d1 d2 d3 : Nat, ∀ rest : List Nat, 2 ≤ rest.length → d0 / 64 = 1 → d0 % 16 ≤ 8 →
        Message.UnmarshalBinary (d0 :: d1 :: d2 :: d3 :: rest) ≠ .error .shortPacket ∧
        Message.UnmarshalBinary (d0 :: d1 :: d2 :: d3 :: rest) ≠ .error .invalidVersion ∧
        Message.UnmarshalBinary (d0 :: d1 :: d2 :: d3 :: rest) ≠ .error .invalidTokenLen) := by
  refine ⟨?_, ?_, ?_, ?_, by rfl, by rfl, ?_, ?_, ?_, ?_⟩
  · intro data h
    unfold parseMessage
    rw [if_pos h]
  · intro d0 d1 d2 d3 rest hv
    unfold parseMessage
    rw [if_neg (show ¬ ((d0 :: d1 :: d2 :: d3 :: rest).length < 4) by
      simp only [List.length_cons]; omega)]
    simp only
    rw [if_pos hv]
  · intro d0 d1 d2 d3 rest hv htk
    unfold parseMessage
    rw [if_neg (show ¬ ((d0 :: d1 :: d2 :: d3 :: rest).length < 4) by
      simp only [List.length_cons]; omega)]
    simp only
    rw [if_neg (show ¬ (d0 / 64 ≠ 1) by omega), if_pos htk]
  · intro d0 d1 d2 d3 rest hv htk
    refine ⟨fun hc => ?_, fun hc => ?_, fun hc => ?_⟩ <;>
      rcases parseMessage_result d0 d1 d2 d3 rest _ hv htk hc with h | h <;> simp at h
  · intro data h
    unfold Message.UnmarshalBinary
    rw [if_pos h]
  · intro d0 d1 d2 d3 rest hr hv
    unfold Message.UnmarshalBinary
    rw [if_neg (show ¬ ((d0 :: d1 :: d2 :: d3 :: rest).length < 6) by
      simp only [List.length_cons]; omega)]
    simp only
    rw [if_pos hv]
  · intro d0 d1 d2 d3 rest hr hv htk
    unfold Message.UnmarshalBinary
    rw [if_neg (show ¬ ((d0 :: d1 :: d2 :: d3 :: rest).length < 6) by
      simp only [List.length_cons]; omega)]
    simp only
    rw [if_neg (show ¬ (d0 / 64 ≠ 1) by omega), if_pos htk]
  · intro d0 d1 d2 d3 rest hr hv htk
    refine ⟨fun hc => ?_, fun hc => ?_, fun hc => ?_⟩ <;>
      rcases unmarshal_result d0 d1 d2 d3 rest _ hr hv htk hc with h | h | h <;> simp at h

/-- C3 counterexample: the input `40 01 30 39` is a well-formed 4-byte
confirmable GET message (version bits 1, token-length nibble 0), yet
`Message.UnmarshalBinary` (src/client.go) rejects it with the
short-packet error because its threshold is 6 bytes, not 4; the claim
says it decodes successfully. -/
theorem unmarshalBinary_rejects_wellformed_4byte :
    Message.UnmarshalBinary [64, 1, 48, 57] = .error .shortPacket ∧
    (64 : Nat) / 64 = 1 ∧ (64 : Nat) % 16 ≤ 8 ∧
    parseMessage [64, 1, 48, 57] =
      .ok { type := 0, code := 1, messageID := 12345, token := [], payload := [], opts := [] } :=
  ⟨rfl, rfl, by decide, rfl⟩

/-- C3 witness: the header-check clauses applied at concrete inputs. -/
theorem decode_header_checks_witness :
    parseMessage [0, 0, 0] = .error .shortPacket ∧
    parseMessage [255, 0, 0, 0] = .error .invalidVersion ∧
    parseMessage [79, 0, 0, 0] = .error .invalidTokenLen ∧
    Message.UnmarshalBinary [0, 0] = .error .shortPacket ∧
    Message.UnmarshalBinary [255, 0, 0, 0, 0, 0] = .error .invalidVersion ∧
    parseMessage [64, 0, 0, 0] ≠ .error .shortPacket :=
  ⟨decode_header_checks.1 [0, 0, 0] (by decide),
   decode_header_checks.2.1 255 0 0 0 [] (by decide),
   decode_header_checks.2.2.1 79 0 0 0 [] (by decide) (by decide),
   decode_header_checks.2.2.2.2.2.2.1 [0, 0] (by decide),
   decode_header_checks.2.2.2.2.2.2.2.1 255 0 0 0 [0, 0] (by decide) (by decide),
   (decode_header_checks.2.2.2.1 64 0 0 0 [] (by decide) (by decide)).1⟩

/-- C1 (amended): round trip of the datagram codec
(`Message.MarshalBinary` / `Message.UnmarshalBinary`, src/client.go).
For every message whose type and message id fit their Go types, whose
token is at most 8 bytes, whose options carry registered option numbers
with values of the canonical decoded shape, whose option values are at
most 65804 bytes (so their lengths fit the nibble scheme - option-number
gaps always fit, since ids are at most 60), and whose encoding is at
least 6 bytes long (the decoder rejects shorter inputs, see the
counterexample), decoding the encoding yields the message back with its
option list stably sorted by option number. -/
theorem unmarshal_marshal_roundtrip (m : Message)
    (hwf : m.WellFormed) (htok : m.token.length ≤ 8)
    (hcan : ∀ o ∈ m.opts, o.Canonical)
    (hlen : ∀ o ∈ m.opts, o.val.toBytes.length ≤ 65804)
    (hsize : 6 ≤ m.MarshalBinary.length) :
    Message.UnmarshalBinary m.MarshalBinary = .ok { m with opts := sortOpts m.opts } :=
  roundtrip_core m hwf.1 hwf.2 htok hcan hlen hsize

/-- C1 witness: the round trip applied to the concrete request used by
the repository tests (ETag and MaxAge options, payload "hi", 3-byte
token), with the options supplied in reverse numeric order to exercise
the sorting. -/
theorem unmarshal_marshal_roundtrip_witness :
    Message.UnmarshalBinary (Message.MarshalBinary
        { type := 0, code := 1, messageID := 12345, token := [1, 2, 3],
          payload := [104, 105],
          opts := [⟨14, .uint 3⟩, ⟨4, .bytes [119, 101, 101, 116, 97, 103]⟩] }) =
      .ok { type := 0, code := 1, messageID := 12345, token := [1, 2, 3],
            payload := [104, 105],
            opts := [⟨4, .bytes [119, 101, 101, 116, 97, 103]⟩, ⟨14, .uint 3⟩] } :=
  unmarshal_marshal_roundtrip
    { type := 0, code := 1, messageID := 12345, token := [1, 2, 3],
      payload := [104, 105],
      opts := [⟨14, .uint 3⟩, ⟨4, .bytes [119, 101, 101, 116, 97, 103]⟩] }
    ⟨by decide, by decide⟩ (by decide) (by decide) (by decide) (by decide)

/-- C1 counterexample: the minimal well-formed message (no token, no
options, no payload) satisfies every hypothesis of the claim as stated,
its encoding is the 4-byte datagram `40 01 30 39`, yet decoding that
encoding fails with the short-packet error (the decoder requires at
least 6 bytes) instead of recovering the message. -/
theorem roundtrip_fails_on_minimal_message :
    Message.MarshalBinary
        { type := 0, code := 1, messageID := 12345, token := [], payload := [], opts := [] } =
      [64, 1, 48, 57] ∧
    Message.UnmarshalBinary (Message.MarshalBinary
        { type := 0, code := 1, messageID := 12345, token := [], payload := [], opts := [] }) =
      .error .shortPacket :=
  ⟨rfl, rfl⟩

/-- C2: the byte sequence produced by `Message.MarshalBinary`
(src/client.go) carries the options in non-decreasing order of option
number, with insertion order preserved among options of equal number:
the emitted option section is exactly the encoding of `sortOpts m.opts`,
which is ordered (`SortedFrom 0`), restricts to the original sublist on
every option number (stability), and is a permutation of the original
list.  (`Message.encode` of src/message.go uses the unstable Go
`sort.Sort` instead; see the comment on `sortOpts`.) -/
theorem marshal_options_sorted_stable (m : Message) :
    m.MarshalBinary =
      (64 ||| m.type * 16 % 256 ||| m.token.length % 16) :: m.code ::
        m.messageID / 256 % 256 :: m.messageID % 256 ::
        (m.token ++ encodeOpts 0 (sortOpts m.opts) ++ payloadSection m.payload) ∧
    SortedFrom 0 (sortOpts m.opts) ∧
    (∀ k : Nat, (sortOpts m.opts).filter (fun o => o.id == k) =
      m.opts.filter (fun o => o.id == k)) ∧
    (sortOpts m.opts).Perm m.opts :=
  ⟨rfl, sortedFrom_sortOpts m.opts, fun k => sortOpts_filter m.opts k, sortOpts_perm m.opts⟩

/-- C4 (amended): `Message.MarshalBinary` (src/client.go) behaves as the
claim states: after the header, token and option section it emits the
byte 0xFF followed by the payload verbatim when the payload is
non-empty, and nothing when it is empty.  The older encoder
`Message.encode` (src/message.go) instead emits the 0xFF marker whenever
the STORED payload is non-empty but then writes the payload with leading
and trailing space (0x20) and NUL (0x00) bytes trimmed away, so the
bytes after the marker are not the payload verbatim (see the
counterexample). -/
theorem payload_marker_emission :
    (∀ m : Message, m.MarshalBinary =
        ((64 ||| m.type * 16 % 256 ||| m.token.length % 16) :: m.code ::
          m.messageID / 256 % 256 :: m.messageID % 256 ::
          (m.token ++ encodeOpts 0 (sortOpts m.opts))) ++
        (if m.payload = [] then [] else 255 :: m.payload)) ∧
    (∀ (m : Message) (enc : List Nat), m.encode = .ok enc →
        ∃ pre : List Nat,
          enc = pre ++ (if m.payload = [] then [] else [255]) ++ trimSpaceNul m.payload) := by
  constructor
  · intro m
    simp [Message.MarshalBinary, payloadSection, List.cons_append, List.append_assoc]
  · intro m enc h
    unfold Message.encode at h
    split at h
    · simp at h
    · next ob heq =>
        simp only [Except.ok.injEq] at h
        refine ⟨(64 ||| m.type * 16 % 256 ||| m.token.length % 16) :: m.code ::
          m.messageID / 256 % 256 :: m.messageID % 256 :: (m.token ++ ob), ?_⟩
        rw [← h]
        simp [List.cons_append, List.append_assoc]

/-- C4 witness: the old encoder applied to a message carrying the ETag
option and the payload `20 68 69 00` (space, "hi", NUL); the encoding
splits as a prefix, the 0xFF marker, and the TRIMMED payload `68 69`. -/
theorem payload_marker_emission_witness :
    ∃ pre : List Nat,
      [64, 1, 1, 2, 65, 119, 255, 104, 105] =
        pre ++ (if ([32, 104, 105, 0] : List Nat) = [] then [] else [255]) ++
          trimSpaceNul [32, 104, 105, 0] :=
  payload_marker_emission.2
    { type := 0, code := 1, messageID := 258, token := [], payload := [32, 104, 105, 0],
      opts := [⟨4, .bytes [119]⟩] }
    [64, 1, 1, 2, 65, 119, 255, 104, 105] (by rfl)

/-- C4 counterexample: a message whose payload is a single space byte
(0x20).  The claim says the encoder emits 0xFF followed by the payload
bytes verbatim; `Message.encode` (src/message.go) emits the 0xFF marker
and then NO payload bytes at all, because `bytes.Trim` removes the
space. -/
theorem encode_payload_not_verbatim :
    Message.encode
        { type := 0, code := 0, messageID := 0, token := [], payload := [32], opts := [] } =
      .ok [64, 0, 0, 0, 255] :=
  rfl

/-- C5 (code bug): the stream-framing length nibble.  The decoder side
(`readTcpMsgInfo`) inverts the documented mapping - the last conjunct
feeds it the encoding the claim mandates for n = 13 (nibble 13, one
extension byte 0) and it recovers a total length of 16 = 3 header bytes
plus 13 body bytes.  The encoder (`TcpMessage.MarshalBinary`) does not
produce that mapping: its first two branches repeat the test
`buf.Len() < TCP_MESSAGE_LEN14_BASE`, so the nibble-13 branch is dead
and every body length from 13 to 268 is written as `uint8(n)` with NO
extension bytes (13 gives nibble 13 without the required extension byte,
20 gives nibble 20, 268 wraps to nibble 12).  Encoding a message whose
options-plus-payload section is 13 bytes therefore yields a datagram
that the decoder itself cannot read back. -/
theorem tcp_length_nibble_bug :
    tcpLenNib 12 = (12, []) ∧
    tcpLenNib 13 = (13, []) ∧
    tcpLenNib 20 = (20, []) ∧
    tcpLenNib 268 = (12, []) ∧
    tcpLenNib 269 = (14, [0, 0]) ∧
    tcpLenNib 65804 = (14, [255, 255]) ∧
    tcpLenNib 65805 = (15, [0, 0, 0, 0]) ∧
    TcpMessage.MarshalBinary
        { type := 0, code := 1, messageID := 0, token := [],
          payload := [97, 97, 97, 97, 97, 97, 97, 97, 97, 97, 97, 97], opts := [] } =
      [208, 1, 255, 97, 97, 97, 97, 97, 97, 97, 97, 97, 97, 97, 97] ∧
    Decode (TcpMessage.MarshalBinary
        { type := 0, code := 1, messageID := 0, token := [],
          payload := [97, 97, 97, 97, 97, 97, 97, 97, 97, 97, 97, 97], opts := [] }) 0 =
      .error .unexpectedEof ∧
    readTcpMsgInfo [208, 0, 1] 0 =
      .ok ({ typ := 0, token := [], code := 1, hdrLen := 3, totLen := 16 }, 3) :=
  ⟨rfl, rfl, rfl, rfl, rfl, rfl, rfl, rfl, rfl, rfl⟩

/-- C6 (code bug): `PullTcp` on a strict prefix of a well-formed
stream-framed message.  The input `02 01 AA` is a strict prefix of the
well-formed message `02 01 AA BB` (header byte: length nibble 0, token
length 2; code 1; two token bytes).  Decoding the prefix fails inside
`readTcpMsgInfo` with io.ErrUnexpectedEOF (only one of the two token
bytes is available), and `PullTcp` - whose own doc comment promises nil
message, unchanged buffer AND nil error for an incomplete message -
checks only for io.EOF and therefore returns the error.  Complete
messages at the head of the queue are extracted with exactly the
trailing bytes returned, and a fully empty queue does take the intended
incomplete path (io.EOF). -/
theorem pullTcp_incomplete_error_bug :
    PullTcp [2, 1, 170] = (none, [2, 1, 170], some .unexpectedEof) ∧
    [2, 1, 170] ++ [187] = [2, 1, 170, 187] ∧
    PullTcp [2, 1, 170, 187] =
      (some { type := 0, code := 1, messageID := 0, token := [170, 187],
              payload := [], opts := [] }, [], none) ∧
    PullTcp [2, 1, 170, 187, 9, 9] =
      (some { type := 0, code := 1, messageID := 0, token := [170, 187],
              payload := [], opts := [] }, [9, 9], none) ∧
    PullTcp [] = (none, [], none) :=
  ⟨rfl, rfl, rfl, rfl, rfl⟩

theorem or8_eq (q r : Nat) (hr : r < 8) : (q * 16 + r) ||| 8 = q * 16 + r + 8 := by
  have h1 : (8 : Nat) ||| r = 8 + r := by
    have h := Nat.mul_add_lt_is_or (show r < 2 ^ 3 by omega) 1
    have e : (2 : Nat) ^ 3 * 1 = 8 := by norm_num
    rw [e] at h
    exact h.symm
  calc (q * 16 + r) ||| 8
      = (q * 16 ||| r) ||| 8 := by rw [or16_eq q r (by omega)]
    _ = q * 16 ||| (r ||| 8) := Nat.or_assoc _ _ _
    _ = q * 16 ||| (8 ||| r) := by rw [Nat.or_comm r 8]
    _ = q * 16 ||| (8 + r) := by rw [h1]
    _ = q * 16 + (8 + r) := or16_eq q _ (by omega)
    _ = q * 16 + r + 8 := by ring

theorem and7_lt8 (k : Nat) (h : k < 8) : k &&& 7 = k := by
  interval_cases k <;> decide

theorem and8_lt8 (k : Nat) (h : k < 8) : k &&& 8 = 0 := by
  interval_cases k <;> decide

theorem and7_plus8 (k : Nat) (h : k < 8) : (k + 8) &&& 7 = k := by
  interval_cases k <;> decide

theorem and8_plus8 (k : Nat) (h : k < 8) : (k + 8) &&& 8 = 8 := by
  interval_cases k <;> decide

theorem parseBlock_core (more : Bool) (num k size : Nat) (hnum : num < 1048576)
    (hk : k < 8) (hs : size = 2 ^ (k + 4)) :
    ParseBlock [num * 16 % 4294967296 ||| k ||| (if more then 8 else 0)] =
      some { more := more, num := num, size := size } := by
  subst hs
  have h16 : num * 16 % 4294967296 = num * 16 := by omega
  rw [h16]
  cases more
  · rw [if_neg (by simp), Nat.or_zero, or16_eq num k (by omega)]
    unfold ParseBlock
    simp only [Option.some.injEq]
    rw [and_low_mod num k 7 (by omega) (by omega), and_low_mod num k 8 (by omega) (by omega),
      and7_lt8 k hk, and8_lt8 k hk]
    have hdiv : (num * 16 + k) / 16 = num := by omega
    rw [hdiv]
    simp
  · rw [if_pos (by simp), or16_eq num k (by omega), or8_eq num k hk]
    unfold ParseBlock
    simp only [Option.some.injEq]
    have hre : num * 16 + k + 8 = num * 16 + (k + 8) := by ring
    rw [hre, and_low_mod num (k + 8) 7 (by omega) (by omega),
      and_low_mod num (k + 8) 8 (by omega) (by omega), and7_plus8 k hk, and8_plus8 k hk]
    have hdiv : (num * 16 + (k + 8)) / 16 = num := by omega
    rw [hdiv]
    simp

/-- C7: block descriptor round trip (src/blockwise.go).  For every block
number below 2^20, both more-flag values and every size in
{16, 32, 64, 128, 256, 512, 1024}, parsing the 32-bit marshalled value
recovers the block: bits [31:4] carry the number, bit 3 the more-flag,
bits [2:0] the size exponent log2(size) - 4. -/
theorem block_roundtrip (b : Block) (hnum : b.num < 1048576)
    (hsize : b.size ∈ ([16, 32, 64, 128, 256, 512, 1024] : List Nat)) :
    ParseBlock [b.MarshalBinary] = some b := by
  obtain ⟨more, num, size⟩ := b
  simp only at hnum hsize
  fin_cases hsize
  · rw [show (Block.mk more num 16).MarshalBinary =
        num * 16 % 4294967296 ||| (log2fuel 16 16 - 4) ||| (if more then 8 else 0) from rfl,
      show log2fuel 16 16 - 4 = 0 from rfl]
    exact parseBlock_core more num 0 16 hnum (by decide) (by norm_num)
  · rw [show (Block.mk more num 32).MarshalBinary =
        num * 16 % 4294967296 ||| (log2fuel 32 32 - 4) ||| (if more then 8 else 0) from rfl,
      show log2fuel 32 32 - 4 = 1 from rfl]
    exact parseBlock_core more num 1 32 hnum (by decide) (by norm_num)
  · rw [show (Block.mk more num 64).MarshalBinary =
        num * 16 % 4294967296 ||| (log2fuel 64 64 - 4) ||| (if more then 8 else 0) from rfl,
      show log2fuel 64 64 - 4 = 2 from rfl]
    exact parseBlock_core more num 2 64 hnum (by decide) (by norm_num)
  · rw [show (Block.mk more num 128).MarshalBinary =
        num * 16 % 4294967296 ||| (log2fuel 128 128 - 4) ||| (if more then 8 else 0) from rfl,
      show log2fuel 128 128 - 4 = 3 from rfl]
    exact parseBlock_core more num 3 128 hnum (by decide) (by norm_num)
  · rw [show (Block.mk more num 256).MarshalBinary =
        num * 16 % 4294967296 ||| (log2fuel 256 256 - 4) ||| (if more then 8 else 0) from rfl,
      show log2fuel 256 256 - 4 = 4 from rfl]
    exact parseBlock_core more num 4 256 hnum (by decide) (by norm_num)
  · rw [show (Block.mk more num 512).MarshalBinary =
        num * 16 % 4294967296 ||| (log2fuel 512 512 - 4) ||| (if more then 8 else 0) from rfl,
      show log2fuel 512 512 - 4 = 5 from rfl]
    exact parseBlock_core more num 5 512 hnum (by decide) (by norm_num)
  · rw [show (Block.mk more num 1024).MarshalBinary =
        num * 16 % 4294967296 ||| (log2fuel 1024 1024 - 4) ||| (if more then 8 else 0) from rfl,
      show log2fuel 1024 1024 - 4 = 6 from rfl]
    exact parseBlock_core more num 6 1024 hnum (by decide) (by norm_num)

/-- C7 witness: the round trip at block number 1047586 (below 2^20),
more-flag set, size 1024 (the repository test block), and at a small
block. -/
theorem block_roundtrip_witness :
    ParseBlock [Block.MarshalBinary ⟨true, 1047586, 1024⟩] = some ⟨true, 1047586, 1024⟩ ∧
    ParseBlock [Block.MarshalBinary ⟨false, 5, 16⟩] = some ⟨false, 5, 16⟩ :=
  ⟨block_roundtrip ⟨true, 1047586, 1024⟩ (by decide) (by decide),
   block_roundtrip ⟨false, 5, 16⟩ (by decide) (by decide)⟩

/-- C8: dispatch uses longest-pattern matching with prefix semantics for
patterns ending in a slash.  With the patterns "/a/" and "/a/b"
registered (stored with leading slashes stripped, byte strings: 97 is
the letter a, 98 is b, 99 is c, 120 is x, 47 is the slash), a request
for path a/b is routed to the a/b handler (handler 1) and a request for
a/c to the a/ handler (handler 0), in BOTH iteration orders of the
pattern map; an unmatched confirmable request for x is answered with an
acknowledgement of code NotFound (132) and no payload, while an
unmatched non-confirmable request gets no reply.  `serveTag` tags each
reply with the id of the handler that produced it so the routed handler
is observable. -/
theorem dispatch_longest_match :
    (muxMatch [(handlePattern [47, 97, 47], 0), (handlePattern [47, 97, 47, 98], 1)]
        [97, 47, 98] = some (1, [97, 47, 98])) ∧
    (muxMatch [(handlePattern [47, 97, 47, 98], 1), (handlePattern [47, 97, 47], 0)]
        [97, 47, 98] = some (1, [97, 47, 98])) ∧
    (muxMatch [(handlePattern [47, 97, 47], 0), (handlePattern [47, 97, 47, 98], 1)]
        [97, 47, 99] = some (0, [97, 47])) ∧
    (muxMatch [(handlePattern [47, 97, 47, 98], 1), (handlePattern [47, 97, 47], 0)]
        [97, 47, 99] = some (0, [97, 47])) ∧
    (handlePacket
        (fun (i : Nat) (_ : Message) =>
          some { type := 2, code := 69, messageID := i, token := [], payload := [], opts := [] })
        [(handlePattern [47, 97, 47], 0), (handlePattern [47, 97, 47, 98], 1)]
        { type := 0, code := 1, messageID := 7, token := [], payload := [],
          opts := [⟨11, .str [97]⟩, ⟨11, .str [98]⟩] } =
      .act false (some { type := 2, code := 69, messageID := 1, token := [], payload := [],
                         opts := [] })) ∧
    (handlePacket
        (fun (i : Nat) (_ : Message) =>
          some { type := 2, code := 69, messageID := i, token := [], payload := [], opts := [] })
        [(handlePattern [47, 97, 47], 0), (handlePattern [47, 97, 47, 98], 1)]
        { type := 0, code := 1, messageID := 7, token := [], payload := [],
          opts := [⟨11, .str [97]⟩, ⟨11, .str [99]⟩] } =
      .act false (some { type := 2, code := 69, messageID := 0, token := [], payload := [],
                         opts := [] })) ∧
    (handlePacket
        (fun (i : Nat) (_ : Message) =>
          some { type := 2, code := 69, messageID := i, token := [], payload := [], opts := [] })
        [(handlePattern [47, 97, 47], 0), (handlePattern [47, 97, 47, 98], 1)]
        { type := 0, code := 1, messageID := 7, token := [], payload := [],
          opts := [⟨11, .str [120]⟩] } =
      .act false (some { type := 2, code := 132, messageID := 0, token := [], payload := [],
                         opts := [] })) ∧
    (handlePacket
        (fun (i : Nat) (_ : Message) =>
          some { type := 2, code := 69, messageID := i, token := [], payload := [], opts := [] })
        [(handlePattern [47, 97, 47], 0), (handlePattern [47, 97, 47, 98], 1)]
        { type := 1, code := 1, messageID := 7, token := [], payload := [],
          opts := [⟨11, .str [120]⟩] } =
      .act false none) :=
  ⟨rfl, rfl, rfl, rfl, rfl, rfl, rfl, rfl⟩

/-- C9 (amended): the retransmitter (src/serverNew.go) under a
confirmable record that is never acknowledged.  The initial timeout
`randTimeout` always lies in [2000 ms, 3000 ms); the loop makes exactly
MAX_RETRANSMIT + 1 = 5 transmissions in total (the initial send plus 4
retransmissions), waiting the current timeout before each retransmission
and doubling it each time (waits t, 2t, 4t, 8t).  Contrary to the claim,
after the budget is exhausted the in-flight record is NOT removed from
the map (deletion happens only in the acknowledgement branch) and no
transmission-timeout failure is reported to the owning waiter (the
`flight` record has no error channel; `Record` only returns the initial
transmission error). -/
theorem retransmit_schedule_amended (r : Nat) :
    2000 ≤ randTimeout r ∧ randTimeout r < 3000 ∧
    (recordNoAck (randTimeout r)).sends = MAX_RETRANSMIT + 1 ∧
    (recordNoAck (randTimeout r)).waits =
      [randTimeout r, 2 * randTimeout r, 4 * randTimeout r, 8 * randTimeout r] ∧
    (recordNoAck (randTimeout r)).inflight = true ∧
    (recordNoAck (randTimeout r)).reported = false := by
  have h : randTimeout r = r % 1000 + 2000 := rfl
  refine ⟨by rw [h]; omega, by rw [h]; omega, rfl, ?_, rfl, rfl⟩
  show [randTimeout r, randTimeout r * 2, randTimeout r * 2 * 2, randTimeout r * 2 * 2 * 2] =
    [randTimeout r, 2 * randTimeout r, 4 * randTimeout r, 8 * randTimeout r]
  have h8 : randTimeout r * 2 * 2 * 2 = 8 * randTimeout r := by ring
  have h4 : randTimeout r * 2 * 2 = 4 * randTimeout r := by ring
  have h2 : randTimeout r * 2 = 2 * randTimeout r := by ring
  rw [h8, h4, h2]

/-- C9 counterexample: the full final state of a never-acknowledged
record with initial timeout 2000 ms: five transmissions were made with
the doubling schedule, but the record is still in flight (not removed)
and nothing was reported, contradicting the last two conjuncts of the
claim. -/
theorem retransmit_record_not_removed :
    recordNoAck 2000 =
      { retrans := 4, timeout := 32000, sends := 5, waits := [2000, 4000, 8000, 16000],
        inflight := true, reported := false } :=
  rfl

/-- C10: `Message.IsObserver` (src/message.go) inspects only the first
option: it returns true exactly when the option list is non-empty and
its head has option id Observe (6); consequently `handlePacket`
(src/server.go) never registers an observer for a request whose first
option is not Observe, even when an Observe option occurs later in wire
order - as the concrete datagram `40 01 00 00 | 42 09 09 | 21 05`
(an ETag option followed by an Observe option) shows. -/
theorem isObserver_first_option_only :
    (∀ m : Message, m.IsObserver = true ↔ ∃ o os, m.opts = o :: os ∧ o.id = 6) ∧
    (∀ (serve : Nat → Message → Option Message) (entries : List (List Nat × Nat)) (m : Message),
        (∀ o os, m.opts = o :: os → o.id ≠ 6) →
        (handlePacket serve entries m).registers = false) ∧
    parseMessage [64, 1, 0, 0, 66, 9, 9, 33, 5] =
      .ok { type := 0, code := 1, messageID := 0, token := [], payload := [],
            opts := [⟨4, .bytes [9, 9]⟩, ⟨6, .bytes [5]⟩] } ∧
    Message.IsObserver
        { type := 0, code := 1, messageID := 0, token := [], payload := [],
          opts := [⟨4, .bytes [9, 9]⟩, ⟨6, .bytes [5]⟩] } = false := by
  refine ⟨?_, ?_, rfl, rfl⟩
  · intro m
    cases hm : m.opts with
    | nil => simp [Message.IsObserver, hm]
    | cons o os => simp [Message.IsObserver, hm]
  · intro serve entries m hfirst
    have hobs : m.IsObserver = false := by
      unfold Message.IsObserver
      cases hm : m.opts with
      | nil => rfl
      | cons o os => simp [hfirst o os hm]
    unfold handlePacket
    by_cases ht : m.type = 2
    · rw [if_pos ht]
      rfl
    · rw [if_neg ht]
      cases hmux : muxMatch entries m.PathString with
      | some pr => simp [PacketAction.registers, hobs]
      | none =>
          simp only [hobs]
          split_ifs <;> rfl

/-- C10 witness: the registration consequence applied to the concrete
message parsed from the ETag-then-Observe datagram. -/
theorem isObserver_first_option_only_witness :
    (handlePacket (fun (_ : Nat) (_ : Message) => none) ([] : List (List Nat × Nat))
        { type := 0, code := 1, messageID := 0, token := [], payload := [],
          opts := [⟨4, .bytes [9, 9]⟩, ⟨6, .bytes [5]⟩] }).registers = false :=
  isObserver_first_option_only.2.1 _ _ _ (by
    intro o os h
    injection h with h1 h2
    rw [← h1]
    decide)
